import Mathlib

/-
Shallow embedding of the contextmap crate (src/lib.rs).

The crate maintains a time-varying relation between links and values.
Registries are shared objects: in Rust they live behind Rc<RefCell<..>> handles
held by two hash indices (links_to_registries and values_to_registries).
We embed this aliasing with an explicit arena: the state carries a heap
regs : Nat -> ContextRegistry together with nextId, and both indices are
association lists mapping keys to registry ids.  An id plays the role of the
Rc identity; mutation of the registry at an id is visible through every index
entry that holds that id, exactly like mutation through an Rc<RefCell<..>>.

BTreeMap<Rc<C>, ContextRecord> is embedded as a list of (key, record) pairs
kept in strictly increasing key order by the insert operation (the same
ordered-map semantics as BTreeMap; key comparison is the Ord of C, embedded
through a LinearOrder instance).  HashMap<K, Rc<..>> is embedded as an
association list with replace-on-insert semantics.

Rust panics (expect / unwrap on None) are embedded as an explicit panicked
outcome; Result is embedded as ok / error.
-/

section ContextMapModel

variable {C L V : Type} [LinearOrder C] [DecidableEq L] [DecidableEq V]

/-- The core unit of a hashmap: one (context, link, optional value) fact
(struct ContextRecord, src/lib.rs lines 31-37). -/
structure ContextRecord (C L V : Type) where
  context : C
  link : L
  value : Option V
  deriving DecidableEq

/-- BTreeMap::insert embedded on an ordered association list: the new pair is
placed before the first strictly larger key; an equal key has its entry
replaced (BTreeMap updates the value and keeps the key, and keys equal under
Ord are equal elements of C here). -/
def btreeInsert {α : Type} (k : C) (a : α) : List (C × α) → List (C × α)
  | [] => [(k, a)]
  | (k1, a1) :: t =>
    if k < k1 then (k, a) :: (k1, a1) :: t
    else if k = k1 then (k, a) :: t
    else (k1, a1) :: btreeInsert k a t

/-- BTreeMap exact-key lookup (used for get_mut in the Overwrite arm). -/
def btreeGet {α : Type} (k : C) : List (C × α) → Option α
  | [] => none
  | (k1, a1) :: t => if k = k1 then some a1 else btreeGet k t

/-- BTreeMap range(..=context).next_back() on the sorted record list: walk the
list while keys stay at most the query context and keep the deepest hit.  On a
list with strictly increasing keys this is exactly the entry with the greatest
key not exceeding the query context. -/
def btreeQuery {α : Type} (context : C) : List (C × α) → Option α
  | [] => none
  | (k, a) :: t => if k ≤ context then some ((btreeQuery context t).getD a) else none

/-- The in-place mutation performed by the Overwrite arm
(existing_record.value = Some(value), src/lib.rs line 452): the record stored
at the given key gets its value field set to Some value; context and link
fields and all other entries are untouched. -/
def btreeSetSomeValue (k : C) (v : V) :
    List (C × ContextRecord C L V) → List (C × ContextRecord C L V)
  | [] => []
  | (k1, rec) :: t =>
    if k = k1 then (k1, { rec with value := some v }) :: t
    else (k1, rec) :: btreeSetSomeValue k v t

/-- HashMap::get embedded on an association list. -/
def alLookup {κ α : Type} [DecidableEq κ] (k : κ) : List (κ × α) → Option α
  | [] => none
  | (k1, a1) :: t => if k = k1 then some a1 else alLookup k t

/-- HashMap::insert embedded on an association list: replaces the entry with
an equal key, otherwise appends. -/
def alInsert {κ α : Type} [DecidableEq κ] (k : κ) (a : α) : List (κ × α) → List (κ × α)
  | [] => [(k, a)]
  | (k1, a1) :: t => if k = k1 then (k, a) :: t else (k1, a1) :: alInsert k a t

/-- HashMap::remove embedded on an association list. -/
def alRemove {κ α : Type} [DecidableEq κ] (k : κ) : List (κ × α) → List (κ × α)
  | [] => []
  | (k1, a1) :: t => if k = k1 then t else (k1, a1) :: alRemove k t

/-- struct ContextRegistry (src/lib.rs lines 75-78): an ordered map of records
keyed by context. -/
structure ContextRegistry (C L V : Type) where
  records : List (C × ContextRecord C L V)
  deriving DecidableEq

/-- ContextRegistry::insert (src/lib.rs lines 81-87); the returned previous
record is ignored by every caller and is not modelled. -/
def ContextRegistry.insert (r : ContextRegistry C L V) (context : C)
    (record : ContextRecord C L V) : ContextRegistry C L V :=
  { records := btreeInsert context record r.records }

/-- ContextRegistry::query (src/lib.rs lines 89-94). -/
def ContextRegistry.query (r : ContextRegistry C L V) (context : C) :
    Option (ContextRecord C L V) :=
  btreeQuery context r.records

/-- ContextRegistry::new (src/lib.rs lines 100-106): one Some-valued record. -/
def ContextRegistry.new (context : C) (link : L) (value : V) : ContextRegistry C L V :=
  { records := [(context, { context := context, link := link, value := some value })] }

/-- ContextRegistry::last_key_value (src/lib.rs lines 108-112).  The Rust code
calls .expect(..) on the underlying Option; we keep the Option, with none
standing for that panic. -/
def ContextRegistry.lastKeyValue (r : ContextRegistry C L V) :
    Option (C × ContextRecord C L V) :=
  r.records.getLast?

/-- ContextRegistry::last_record (src/lib.rs lines 113-115). -/
def ContextRegistry.lastRecord (r : ContextRegistry C L V) : Option (ContextRecord C L V) :=
  r.lastKeyValue.map Prod.snd

/-- ContextRegistry::context (src/lib.rs lines 117-119); none = panic of the
expect inside last_key_value on an empty registry. -/
def ContextRegistry.context (r : ContextRegistry C L V) : Option C :=
  r.lastRecord.map ContextRecord.context

/-- ContextRegistry::link (src/lib.rs lines 121-123); none = panic on an empty
registry. -/
def ContextRegistry.link (r : ContextRegistry C L V) : Option L :=
  r.lastRecord.map ContextRecord.link

/-- ContextRegistry::value (src/lib.rs lines 125-127): the value of the most
recent record.  Rust returns Option of the stored value and panics on an empty
registry; both the panic and a None-valued last record collapse to none here.
Indexed registries are never empty (see the claim about non-empty registries),
so the collapse is invisible on reachable states. -/
def ContextRegistry.value (r : ContextRegistry C L V) : Option V :=
  r.lastRecord.bind ContextRecord.value

/-- struct ContextMap (src/lib.rs lines 172-176) with the Rc<RefCell<..>>
registry sharing made explicit as an arena: regs is the heap of registry
objects, nextId the next fresh id, and the two indices map keys to ids. -/
structure ContextMap (L C V : Type) where
  regs : Nat → ContextRegistry C L V
  nextId : Nat
  links_to_registries : List (L × Nat)
  values_to_registries : List (V × Nat)

/-- Replace the registry stored at one heap id. -/
def ContextMap.setReg (m : ContextMap L C V) (rid : Nat) (r : ContextRegistry C L V) :
    ContextMap L C V :=
  { m with regs := fun i => if i = rid then r else m.regs i }

/-- enum LinkInsertionCommand (src/lib.rs lines 190-208). -/
inductive LinkInsertionCommand (C L V : Type) where
  | NewLink (context : C) (link : L) (value : V)
  | Update (context : C) (link : L) (value : V)
  | Overwrite (context : C) (link : L) (value : V)
  | NoChange
  deriving DecidableEq

/-- enum ValueInsertionCommand (src/lib.rs lines 210-220). -/
inductive ValueInsertionCommand (C V : Type) where
  | AddValue (new_value : V)
  | RemoveExistingValueAddNewValue (existing_value : V) (new_context : C) (new_value : V)
  deriving DecidableEq

/-- enum InsertionError (src/lib.rs lines 222-227). -/
inductive InsertionError where
  | OutdatedContext
  | OverwritingSome
  | NullifyingSome
  deriving DecidableEq

/-- The Box of dyn Error returned by the public insert entry points: either a
boxed InsertionError or the literal string error of insert_without_overwrite
(src/lib.rs line 287). -/
inductive DynError where
  | insertion (e : InsertionError)
  | overwriteTodo
  deriving DecidableEq

/-- Outcome of a fallible computation: Ok, Err, or a Rust panic
(expect / unwrap on None). -/
inductive RunResult (ε α : Type) where
  | ok (a : α)
  | error (e : ε)
  | panicked
  deriving DecidableEq

/-- Outcome of the execute phase, which returns no Result in Rust: it either
completes or panics. -/
inductive ExecResult (α : Type) where
  | ok (a : α)
  | panicked
  deriving DecidableEq

/-- ContextMap::new (src/lib.rs lines 244-249). -/
def ContextMap.new : ContextMap L C V :=
  { regs := fun _ => { records := [] }
    nextId := 0
    links_to_registries := []
    values_to_registries := [] }

/-- ContextMap::query (src/lib.rs lines 251-255). -/
def ContextMap.query (m : ContextMap L C V) (context : C) (link : L) :
    Option (ContextRecord C L V) :=
  (alLookup link m.links_to_registries).bind fun rid => (m.regs rid).query context

/-- ContextMap::get_live_value (src/lib.rs lines 257-262):
.get(link).map(|r| r.value()).flatten(). -/
def ContextMap.get_live_value (m : ContextMap L C V) (link : L) : Option V :=
  (alLookup link m.links_to_registries).bind fun rid => (m.regs rid).value

/-- ContextMap::get_live_link (src/lib.rs lines 263-267). -/
def ContextMap.get_live_link (m : ContextMap L C V) (value : V) : Option L :=
  (alLookup value m.values_to_registries).bind fun rid => (m.regs rid).link

/-- The test std::ptr::eq(link_registry, value_registry) at src/lib.rs line 382.
Both arguments have type borrowed Rc of RefCell of ContextRegistry, borrowed
out of two DIFFERENT HashMaps, so std::ptr::eq compares the storage addresses
of the two Rc handles themselves (the map slots), not the registry allocation
they point to.  Entries of two distinct live HashMaps occupy disjoint
allocations, hence the comparison is false in every state.  (Comparing the
pointed-to registries would have required Rc::ptr_eq.)  We therefore embed the
test as the constant false, keeping the two ids as arguments to mirror the
shape of the source. -/
def rcSlotPtrEq (_linkRid _valueRid : Nat) : Bool := false

/-- The body of ContextMap::generate_link_insertion_command after the fast
path (src/lib.rs lines 386-412). -/
def generate_link_insertion_command_main (m : ContextMap L C V) (context : C)
    (link : L) (value : V) : RunResult InsertionError (LinkInsertionCommand C L V) :=
  match alLookup link m.links_to_registries with
  | none => .ok (.NewLink context link value)
  | some rid =>
    match (m.regs rid).context with
    | none => .panicked
    | some linked_context =>
      match compare context linked_context with
      | .lt => .error .OutdatedContext
      | .eq => .ok (.Overwrite context link value)
      | .gt => .ok (.Update context link value)

/-- ContextMap::generate_link_insertion_command (src/lib.rs lines 374-412),
fast path first. -/
def generate_link_insertion_command (m : ContextMap L C V) (context : C)
    (link : L) (value : V) : RunResult InsertionError (LinkInsertionCommand C L V) :=
  match alLookup link m.links_to_registries, alLookup value m.values_to_registries with
  | some linkRid, some valueRid =>
    if rcSlotPtrEq linkRid valueRid then .ok .NoChange
    else generate_link_insertion_command_main m context link value
  | _, _ => generate_link_insertion_command_main m context link value

/-- ContextMap::generate_value_insertion_command (src/lib.rs lines 314-347).
The Greater arm calls self.get_live_value(link).expect(..): none there is the
panic of that expect (and of registry.value() on an empty registry, which also
panics in Rust). -/
def generate_value_insertion_command (m : ContextMap L C V) (context : C)
    (link : L) (value : V) : RunResult InsertionError (ValueInsertionCommand C V) :=
  match alLookup value m.values_to_registries with
  | none => .ok (.AddValue value)
  | some rid =>
    match (m.regs rid).context with
    | none => .panicked
    | some existing_value_context =>
      match compare context existing_value_context with
      | .lt => .error .OutdatedContext
      | .eq => .error .NullifyingSome
      | .gt =>
        match m.get_live_value link with
        | none => .panicked
        | some existing_value =>
          .ok (.RemoveExistingValueAddNewValue existing_value context value)

/-- ContextMap::execute_link_insertion_command (src/lib.rs lines 414-458).
Returns the registry (id) the value side should point at, or none for
NoChange.  The two .unwrap() calls of the Update and Overwrite arms are the
panicked outcomes. -/
def execute_link_insertion_command (m : ContextMap L C V)
    (command : LinkInsertionCommand C L V) : ExecResult (Option Nat) × ContextMap L C V :=
  match command with
  | .NewLink context link value =>
    let newRid := m.nextId
    let m1 := m.setReg newRid (ContextRegistry.new context link value)
    (.ok (some newRid),
      { m1 with
        nextId := m.nextId + 1
        links_to_registries := alInsert link newRid m.links_to_registries })
  | .Update context link value =>
    match alLookup link m.links_to_registries with
    | none => (.panicked, m)
    | some rid =>
      let newRec : ContextRecord C L V := { context := context, link := link, value := some value }
      (.ok (some rid), m.setReg rid ((m.regs rid).insert context newRec))
  | .Overwrite context link value =>
    match alLookup link m.links_to_registries with
    | none => (.panicked, m)
    | some rid =>
      match btreeGet context (m.regs rid).records with
      | none => (.panicked, m)
      | some _ =>
        (.ok (some rid),
          m.setReg rid { records := btreeSetSomeValue context value (m.regs rid).records })
  | .NoChange => (.ok none, m)

/-- ContextMap::execute_value_insertion_command (src/lib.rs lines 349-372).
In the removal arm the Rust code first removes the existing value entry
(.unwrap() = panicked on a missing entry), reads the link of the removed
registry (panics on an empty registry), appends the None record to that
registry at the new context, then indexes the new value to the new registry. -/
def execute_value_insertion_command (m : ContextMap L C V)
    (command : ValueInsertionCommand C V) (newRid : Nat) :
    ExecResult Unit × ContextMap L C V :=
  match command with
  | .AddValue new_value =>
    (.ok (),
      { m with values_to_registries := alInsert new_value newRid m.values_to_registries })
  | .RemoveExistingValueAddNewValue existing_value new_context new_value =>
    match alLookup existing_value m.values_to_registries with
    | none => (.panicked, m)
    | some exRid =>
      let m1 := { m with values_to_registries := alRemove existing_value m.values_to_registries }
      match (m1.regs exRid).link with
      | none => (.panicked, m1)
      | some existing_link =>
        let nullRec : ContextRecord C L V :=
          { context := new_context, link := existing_link, value := none }
        let m2 := m1.setReg exRid ((m1.regs exRid).insert new_context nullRec)
        (.ok (),
          { m2 with values_to_registries := alInsert new_value newRid m2.values_to_registries })

/-- ContextMap::execute_insertion_commands (src/lib.rs lines 299-305): run the
link command; if it produced a registry, run the value command against it. -/
def execute_insertion_commands (m : ContextMap L C V)
    (link_command : LinkInsertionCommand C L V) (value_command : ValueInsertionCommand C V) :
    ExecResult Unit × ContextMap L C V :=
  match execute_link_insertion_command m link_command with
  | (.ok (some newRid), m1) => execute_value_insertion_command m1 value_command newRid
  | (.ok none, m1) => (.ok (), m1)
  | (.panicked, m1) => (.panicked, m1)

/-- ContextMap::generate_insertion_commands (src/lib.rs lines 307-312): link
side first, then value side, both against the unmutated state. -/
def generate_insertion_commands (m : ContextMap L C V) (context : C) (link : L) (value : V) :
    RunResult InsertionError (LinkInsertionCommand C L V × ValueInsertionCommand C V) :=
  match generate_link_insertion_command m context link value with
  | .error e => .error e
  | .panicked => .panicked
  | .ok link_command =>
    match generate_value_insertion_command m context link value with
    | .error e => .error e
    | .panicked => .panicked
    | .ok value_command => .ok (link_command, value_command)

/-- ContextMap::insert_with_overwrite (src/lib.rs lines 294-297): generate
both commands, then execute. -/
def ContextMap.insert_with_overwrite (m : ContextMap L C V) (context : C) (link : L)
    (value : V) : RunResult InsertionError Unit × ContextMap L C V :=
  match generate_insertion_commands m context link value with
  | .error e => (.error e, m)
  | .panicked => (.panicked, m)
  | .ok (link_command, value_command) =>
    match execute_insertion_commands m link_command value_command with
    | (.ok a, m1) => (.ok a, m1)
    | (.panicked, m1) => (.panicked, m1)

/-- ContextMap::insert_without_overwrite (src/lib.rs lines 279-292): generate
the commands, reject a link-side Overwrite with the string error, otherwise
execute as usual. -/
def ContextMap.insert_without_overwrite (m : ContextMap L C V) (context : C) (link : L)
    (value : V) : RunResult DynError Unit × ContextMap L C V :=
  match generate_insertion_commands m context link value with
  | .error e => (.error (.insertion e), m)
  | .panicked => (.panicked, m)
  | .ok (.Overwrite _ _ _, _value_command) => (.error .overwriteTodo, m)
  | .ok (link_command, value_command) =>
    match execute_insertion_commands m link_command value_command with
    | (.ok a, m1) => (.ok a, m1)
    | (.panicked, m1) => (.panicked, m1)

/-- ContextMap::insert (src/lib.rs lines 270-277): insert_with_overwrite with
the error boxed into dyn Error. -/
def ContextMap.insert (m : ContextMap L C V) (context : C) (link : L) (value : V) :
    RunResult DynError Unit × ContextMap L C V :=
  match m.insert_with_overwrite context link value with
  | (.ok a, m1) => (.ok a, m1)
  | (.error e, m1) => (.error (.insertion e), m1)
  | (.panicked, m1) => (.panicked, m1)

/-- Index well-formedness: every registry id stored in either index lies below
the allocation frontier of the arena.  This is automatic for the Rust code
(an Rc handle always points at a live allocation) and is an artifact of the
arena embedding; it holds for every state built by the operations. -/
def ContextMap.WF (m : ContextMap L C V) : Prop :=
  (∀ p ∈ m.links_to_registries, p.2 < m.nextId) ∧
  (∀ p ∈ m.values_to_registries, p.2 < m.nextId)

instance (m : ContextMap L C V) : Decidable m.WF := by
  unfold ContextMap.WF; exact inferInstance

/-- Every allocated registry keeps its records in strictly increasing context
order: the BTreeMap ordering invariant. -/
def ContextMap.SortedHeap (m : ContextMap L C V) : Prop :=
  ∀ rid < m.nextId, List.Pairwise (· < ·) ((m.regs rid).records.map Prod.fst)

instance (m : ContextMap L C V) : Decidable m.SortedHeap := by
  unfold ContextMap.SortedHeap; exact inferInstance

/-- Every registry reachable from either index is non-empty, so its
last_key_value (an expect in Rust) always finds a record. -/
def ContextMap.ReachableNE (m : ContextMap L C V) : Prop :=
  (∀ p ∈ m.links_to_registries, ((m.regs p.2).lastKeyValue).isSome = true) ∧
  (∀ p ∈ m.values_to_registries, ((m.regs p.2).lastKeyValue).isSome = true)

instance (m : ContextMap L C V) : Decidable m.ReachableNE := by
  unfold ContextMap.ReachableNE; exact inferInstance

end ContextMapModel

/-
Concrete states used by the claim theorems and witnesses, instantiated at
C = Nat (contexts), L = String (links), V = Nat (values), matching the
documented scenario insert(0, "a", 10); insert(1, "b", 20); insert(2, "b", 10).
-/

/-- The scenario after insert(0, "a", 10). -/
def scenarioStep1 : RunResult DynError Unit × ContextMap String Nat Nat :=
  (ContextMap.new : ContextMap String Nat Nat).insert 0 "a" 10

/-- State after insert(0, "a", 10). -/
def scenarioState1 : ContextMap String Nat Nat := scenarioStep1.2

/-- The scenario after insert(1, "b", 20). -/
def scenarioStep2 : RunResult DynError Unit × ContextMap String Nat Nat :=
  scenarioState1.insert 1 "b" 20

/-- State after insert(1, "b", 20). -/
def scenarioState2 : ContextMap String Nat Nat := scenarioStep2.2

/-- The scenario after insert(2, "b", 10). -/
def scenarioStep3 : RunResult DynError Unit × ContextMap String Nat Nat :=
  scenarioState2.insert 2 "b" 10

/-- State after insert(2, "b", 10). -/
def scenarioState3 : ContextMap String Nat Nat := scenarioStep3.2


/-
Helper lemmas about the embedded containers.
-/

section ContainerLemmas

set_option linter.unusedSectionVars false

variable {C L V : Type} [LinearOrder C] [DecidableEq L] [DecidableEq V]

theorem alLookup_mem {κ α : Type} [DecidableEq κ] {k : κ} {a : α} {l : List (κ × α)}
    (h : alLookup k l = some a) : (k, a) ∈ l := by
  induction l with
  | nil => simp [alLookup] at h
  | cons p t ih =>
    rcases p with ⟨k1, a1⟩
    by_cases hk : k = k1
    · subst hk
      simp [alLookup] at h
      subst h
      exact List.mem_cons_self _ _
    · simp [alLookup, hk] at h
      exact List.mem_cons_of_mem _ (ih h)

theorem alLookup_alInsert_ne {κ α : Type} [DecidableEq κ] {k k1 : κ} (a : α)
    (l : List (κ × α)) (hne : k1 ≠ k) : alLookup k1 (alInsert k a l) = alLookup k1 l := by
  induction l with
  | nil => simp [alInsert, alLookup, hne]
  | cons p t ih =>
    rcases p with ⟨k2, a2⟩
    by_cases hk : k = k2
    · subst hk
      simp [alInsert, alLookup, hne]
    · by_cases hk1 : k1 = k2 <;> simp [alInsert, alLookup, hk, hk1, ih]

theorem mem_alInsert {κ α : Type} [DecidableEq κ] {p : κ × α} {k : κ} {a : α}
    {l : List (κ × α)} (h : p ∈ alInsert k a l) : p = (k, a) ∨ p ∈ l := by
  induction l with
  | nil => simp [alInsert] at h; simp [h]
  | cons q t ih =>
    rcases q with ⟨k2, a2⟩
    by_cases hk : k = k2
    · subst hk
      simp [alInsert] at h
      rcases h with h | h
      · exact Or.inl (by simp [h])
      · exact Or.inr (List.mem_cons_of_mem _ h)
    · simp [alInsert, hk] at h
      rcases h with h | h
      · exact Or.inr (by simp [h])
      · rcases ih h with h1 | h1
        · exact Or.inl h1
        · exact Or.inr (List.mem_cons_of_mem _ h1)

theorem mem_alRemove {κ α : Type} [DecidableEq κ] {p : κ × α} {k : κ}
    {l : List (κ × α)} (h : p ∈ alRemove k l) : p ∈ l := by
  induction l with
  | nil => simp [alRemove] at h
  | cons q t ih =>
    rcases q with ⟨k2, a2⟩
    by_cases hk : k = k2
    · subst hk
      simp [alRemove] at h
      exact List.mem_cons_of_mem _ h
    · simp [alRemove, hk] at h
      rcases h with h | h
      · simp [h]
      · exact List.mem_cons_of_mem _ (ih h)

theorem btreeInsert_ne_nil {α : Type} {k : C} {a : α} {l : List (C × α)} :
    btreeInsert k a l ≠ [] := by
  cases l with
  | nil => simp [btreeInsert]
  | cons p t =>
    rcases p with ⟨k1, a1⟩
    by_cases h1 : k < k1
    · simp [btreeInsert, h1]
    · by_cases h2 : k = k1 <;> simp [btreeInsert, h1, h2]

theorem mem_keys_btreeInsert {α : Type} {x k : C} {a : α} {l : List (C × α)}
    (h : x ∈ (btreeInsert k a l).map Prod.fst) : x = k ∨ x ∈ l.map Prod.fst := by
  induction l with
  | nil => simp [btreeInsert] at h; exact Or.inl h
  | cons p t ih =>
    rcases p with ⟨k1, a1⟩
    by_cases h1 : k < k1
    · simp only [btreeInsert, if_pos h1] at h
      simp at h
      rcases h with h | h | h
      · exact Or.inl h
      · exact Or.inr (by simp [h])
      · exact Or.inr (by simp [h])
    · by_cases h2 : k = k1
      · simp only [btreeInsert, if_neg h1, if_pos h2] at h
        simp at h
        rcases h with h | h
        · exact Or.inl h
        · exact Or.inr (by simp [h])
      · simp only [btreeInsert, if_neg h1, if_neg h2] at h
        simp at h
        rcases h with h | h
        · exact Or.inr (by simp [h])
        · rcases ih (by simpa using h) with h3 | h3
          · exact Or.inl h3
          · exact Or.inr (by simp at h3 ⊢; tauto)

theorem pairwise_keys_btreeInsert {α : Type} {k : C} {a : α} {l : List (C × α)}
    (h : List.Pairwise (· < ·) (l.map Prod.fst)) :
    List.Pairwise (· < ·) ((btreeInsert k a l).map Prod.fst) := by
  induction l with
  | nil => simp [btreeInsert]
  | cons p t ih =>
    rcases p with ⟨k1, a1⟩
    simp only [List.map_cons, List.pairwise_cons] at h
    by_cases h1 : k < k1
    · simp only [btreeInsert, if_pos h1, List.map_cons, List.pairwise_cons]
      refine ⟨?_, h.1, h.2⟩
      intro x hx
      simp at hx
      rcases hx with hx | hx
      · simpa [hx] using h1
      · exact lt_trans h1 (h.1 x (by simpa using hx))
    · by_cases h2 : k = k1
      · simp only [btreeInsert, if_neg h1, if_pos h2, List.map_cons, List.pairwise_cons]
        subst h2
        exact ⟨h.1, h.2⟩
      · have hk1 : k1 < k := by
          rcases lt_trichotomy k k1 with h3 | h3 | h3
          · exact absurd h3 h1
          · exact absurd h3 h2
          · exact h3
        simp only [btreeInsert, if_neg h1, if_neg h2, List.map_cons, List.pairwise_cons]
        refine ⟨?_, ih h.2⟩
        intro x hx
        rcases mem_keys_btreeInsert hx with h3 | h3
        · simpa [h3] using hk1
        · exact h.1 x h3

theorem btreeSetSomeValue_keys {k : C} {v : V} {l : List (C × ContextRecord C L V)} :
    (btreeSetSomeValue k v l).map Prod.fst = l.map Prod.fst := by
  induction l with
  | nil => simp [btreeSetSomeValue]
  | cons p t ih =>
    rcases p with ⟨k1, rec⟩
    by_cases h : k = k1 <;> simp [btreeSetSomeValue, h, ih]

theorem btreeSetSomeValue_ne_nil {k : C} {v : V} {l : List (C × ContextRecord C L V)}
    (h : l ≠ []) : btreeSetSomeValue k v l ≠ [] := by
  cases l with
  | nil => exact absurd rfl h
  | cons p t =>
    rcases p with ⟨k1, rec⟩
    by_cases h1 : k = k1 <;> simp [btreeSetSomeValue, h1]

theorem btreeQuery_btreeInsert_of_lt {α : Type} {c k : C} {a : α} {l : List (C × α)}
    (h : c < k) : btreeQuery c (btreeInsert k a l) = btreeQuery c l := by
  induction l with
  | nil => simp [btreeInsert, btreeQuery, not_le_of_lt h]
  | cons p t ih =>
    rcases p with ⟨k1, a1⟩
    by_cases h1 : k < k1
    · have hk1 : ¬ k1 ≤ c := not_le_of_lt (lt_trans h h1)
      simp [btreeInsert, h1, btreeQuery, not_le_of_lt h, hk1]
    · by_cases h2 : k = k1
      · subst h2
        simp [btreeInsert, h1, btreeQuery, not_le_of_lt h]
      · by_cases h3 : k1 ≤ c <;>
          simp [btreeInsert, h1, h2, btreeQuery, h3, ih]

theorem btreeQuery_setSome_of_lt {c k : C} {v : V} {l : List (C × ContextRecord C L V)}
    (h : c < k) : btreeQuery c (btreeSetSomeValue k v l) = btreeQuery c l := by
  induction l with
  | nil => simp [btreeSetSomeValue]
  | cons p t ih =>
    rcases p with ⟨k1, rec⟩
    by_cases h1 : k = k1
    · subst h1
      simp [btreeSetSomeValue, btreeQuery, not_le_of_lt h]
    · by_cases h3 : k1 ≤ c <;>
        simp [btreeSetSomeValue, h1, btreeQuery, h3, ih]

theorem btreeGet_some_ne_nil {α : Type} {k : C} {a : α} {l : List (C × α)}
    (h : btreeGet k l = some a) : l ≠ [] := by
  cases l with
  | nil => simp [btreeGet] at h
  | cons p t => simp

theorem btreeQuery_none_iff {α : Type} {c : C} {l : List (C × α)} :
    btreeQuery c l = none ↔ (l = [] ∨ ∃ kh ah t, l = (kh, ah) :: t ∧ c < kh) := by
  cases l with
  | nil => simp [btreeQuery]
  | cons p t =>
    rcases p with ⟨kh, ah⟩
    by_cases h : kh ≤ c
    · simp [btreeQuery, h, not_lt.mpr h]
    · simp [btreeQuery, h, lt_of_not_le h]

end ContainerLemmas

/-
Lemmas about the command generators and executors.
-/

section ModelLemmas

set_option linter.unusedSectionVars false

variable {C L V : Type} [LinearOrder C] [DecidableEq L] [DecidableEq V]

theorem gen_link_eq_main (m : ContextMap L C V) (context : C) (link : L) (value : V) :
    generate_link_insertion_command m context link value =
      generate_link_insertion_command_main m context link value := by
  unfold generate_link_insertion_command
  cases hl : alLookup link m.links_to_registries <;>
    cases hv : alLookup value m.values_to_registries <;>
      simp [rcSlotPtrEq]

theorem registry_context_isSome {r : ContextRegistry C L V}
    (h : r.lastKeyValue.isSome = true) : ∃ cx, r.context = some cx := by
  cases hkv : r.lastKeyValue with
  | none => rw [hkv] at h; simp at h
  | some p =>
    refine ⟨p.2.context, ?_⟩
    unfold ContextRegistry.context ContextRegistry.lastRecord
    rw [hkv]
    rfl

theorem gen_commands_ok_inv {m : ContextMap L C V} {context : C} {link : L} {value : V}
    {lc : LinkInsertionCommand C L V} {vc : ValueInsertionCommand C V}
    (h : generate_insertion_commands m context link value = .ok (lc, vc)) :
    generate_link_insertion_command m context link value = .ok lc ∧
    generate_value_insertion_command m context link value = .ok vc := by
  unfold generate_insertion_commands at h
  cases h1 : generate_link_insertion_command m context link value with
  | error e => rw [h1] at h; simp at h
  | panicked => rw [h1] at h; simp at h
  | ok lc1 =>
    rw [h1] at h
    cases h2 : generate_value_insertion_command m context link value with
    | error e => rw [h2] at h; simp at h
    | panicked => rw [h2] at h; simp at h
    | ok vc1 =>
      rw [h2] at h
      simp at h
      exact ⟨by rw [h.1], by rw [h.2]⟩

theorem gen_link_ok_inv {m : ContextMap L C V} {context : C} {link : L} {value : V}
    {lc : LinkInsertionCommand C L V}
    (h : generate_link_insertion_command m context link value = .ok lc) :
    (lc = .NewLink context link value ∧ alLookup link m.links_to_registries = none) ∨
    (∃ rid lcx, alLookup link m.links_to_registries = some rid ∧
      (m.regs rid).context = some lcx ∧
      ((lc = .Overwrite context link value ∧ context = lcx) ∨
       (lc = .Update context link value ∧ lcx < context))) := by
  rw [gen_link_eq_main] at h
  unfold generate_link_insertion_command_main at h
  cases hl : alLookup link m.links_to_registries with
  | none =>
    rw [hl] at h
    simp at h
    exact Or.inl ⟨h.symm, rfl⟩
  | some rid =>
    rw [hl] at h
    dsimp only at h
    cases hcx : (m.regs rid).context with
    | none => rw [hcx] at h; simp at h
    | some lcx =>
      rw [hcx] at h
      dsimp only at h
      refine Or.inr ⟨rid, lcx, rfl, hcx, ?_⟩
      cases hcmp : compare context lcx with
      | lt => rw [hcmp] at h; simp at h
      | eq =>
        rw [hcmp] at h
        simp at h
        exact Or.inl ⟨h.symm, compare_eq_iff_eq.mp hcmp⟩
      | gt =>
        rw [hcmp] at h
        simp at h
        exact Or.inr ⟨h.symm, compare_gt_iff_gt.mp hcmp⟩

theorem gen_value_ok_inv {m : ContextMap L C V} {context : C} {link : L} {value : V}
    {vc : ValueInsertionCommand C V}
    (h : generate_value_insertion_command m context link value = .ok vc) :
    (vc = .AddValue value ∧ alLookup value m.values_to_registries = none) ∨
    (∃ rid vcx ev, alLookup value m.values_to_registries = some rid ∧
      (m.regs rid).context = some vcx ∧ vcx < context ∧
      m.get_live_value link = some ev ∧
      vc = .RemoveExistingValueAddNewValue ev context value) := by
  unfold generate_value_insertion_command at h
  cases hv : alLookup value m.values_to_registries with
  | none =>
    rw [hv] at h
    simp at h
    exact Or.inl ⟨h.symm, rfl⟩
  | some rid =>
    rw [hv] at h
    dsimp only at h
    cases hcx : (m.regs rid).context with
    | none => rw [hcx] at h; simp at h
    | some vcx =>
      rw [hcx] at h
      dsimp only at h
      cases hcmp : compare context vcx with
      | lt => rw [hcmp] at h; simp at h
      | eq => rw [hcmp] at h; simp at h
      | gt =>
        rw [hcmp] at h
        dsimp only at h
        cases hev : m.get_live_value link with
        | none => rw [hev] at h; simp at h
        | some ev =>
          rw [hev] at h
          simp at h
          exact Or.inr ⟨rid, vcx, ev, rfl, hcx, compare_gt_iff_gt.mp hcmp, rfl, h.symm⟩

theorem gen_value_outdated {m : ContextMap L C V} {context : C} (link : L) {value : V}
    {rid : Nat} {vcx : C} (hv : alLookup value m.values_to_registries = some rid)
    (hcx : (m.regs rid).context = some vcx) (hlt : context < vcx) :
    generate_value_insertion_command m context link value = .error .OutdatedContext := by
  unfold generate_value_insertion_command
  rw [hv]
  dsimp only
  rw [hcx]
  dsimp only
  rw [compare_lt_iff_lt.mpr hlt]

theorem gen_link_outdated {m : ContextMap L C V} {context : C} {link : L} (value : V)
    {rid : Nat} {lcx : C} (hl : alLookup link m.links_to_registries = some rid)
    (hcx : (m.regs rid).context = some lcx) (hlt : context < lcx) :
    generate_link_insertion_command m context link value = .error .OutdatedContext := by
  rw [gen_link_eq_main]
  unfold generate_link_insertion_command_main
  rw [hl]
  dsimp only
  rw [hcx]
  dsimp only
  rw [compare_lt_iff_lt.mpr hlt]

theorem exec_link_values_eq (m : ContextMap L C V) (lc : LinkInsertionCommand C L V) :
    ((execute_link_insertion_command m lc).2).values_to_registries = m.values_to_registries := by
  cases lc with
  | NewLink c l v => rfl
  | Update c l v =>
    cases hl : alLookup l m.links_to_registries <;>
      simp [execute_link_insertion_command, hl, ContextMap.setReg]
  | Overwrite c l v =>
    cases hl : alLookup l m.links_to_registries with
    | none => simp [execute_link_insertion_command, hl]
    | some rid =>
      cases hg : btreeGet c (m.regs rid).records <;>
        simp [execute_link_insertion_command, hl, hg, ContextMap.setReg]
  | NoChange => rfl

theorem exec_link_nextId_ge (m : ContextMap L C V) (lc : LinkInsertionCommand C L V) :
    m.nextId ≤ ((execute_link_insertion_command m lc).2).nextId := by
  cases lc with
  | NewLink c l v => simp [execute_link_insertion_command, ContextMap.setReg]
  | Update c l v =>
    cases hl : alLookup l m.links_to_registries <;>
      simp [execute_link_insertion_command, hl, ContextMap.setReg]
  | Overwrite c l v =>
    cases hl : alLookup l m.links_to_registries with
    | none => simp [execute_link_insertion_command, hl]
    | some rid =>
      cases hg : btreeGet c (m.regs rid).records <;>
        simp [execute_link_insertion_command, hl, hg, ContextMap.setReg]
  | NoChange => simp [execute_link_insertion_command]

theorem exec_value_links_eq (m : ContextMap L C V) (vc : ValueInsertionCommand C V)
    (newRid : Nat) :
    ((execute_value_insertion_command m vc newRid).2).links_to_registries =
      m.links_to_registries := by
  cases vc with
  | AddValue nv => rfl
  | RemoveExistingValueAddNewValue ev nc nv =>
    cases hv : alLookup ev m.values_to_registries with
    | none => simp [execute_value_insertion_command, hv]
    | some exRid =>
      cases hlk : (({ m with values_to_registries := alRemove ev m.values_to_registries
          : ContextMap L C V }).regs exRid).link <;>
        simp [execute_value_insertion_command, hv, hlk, ContextMap.setReg]

theorem exec_value_nextId_eq (m : ContextMap L C V) (vc : ValueInsertionCommand C V)
    (newRid : Nat) :
    ((execute_value_insertion_command m vc newRid).2).nextId = m.nextId := by
  cases vc with
  | AddValue nv => rfl
  | RemoveExistingValueAddNewValue ev nc nv =>
    cases hv : alLookup ev m.values_to_registries with
    | none => simp [execute_value_insertion_command, hv]
    | some exRid =>
      cases hlk : (({ m with values_to_registries := alRemove ev m.values_to_registries
          : ContextMap L C V }).regs exRid).link <;>
        simp [execute_value_insertion_command, hv, hlk, ContextMap.setReg]

end ModelLemmas

/-
Invariant preservation through the executors.
-/

section PreservationLemmas

set_option linter.unusedSectionVars false

variable {C L V : Type} [LinearOrder C] [DecidableEq L] [DecidableEq V]

theorem wf_exec_link {m : ContextMap L C V} (hWF : m.WF) (lc : LinkInsertionCommand C L V) :
    ((execute_link_insertion_command m lc).2).WF := by
  cases lc with
  | NewLink c l v =>
    constructor
    · intro p hp
      simp only [execute_link_insertion_command, ContextMap.setReg] at hp ⊢
      rcases mem_alInsert hp with h | h
      · simp [h]
      · exact Nat.lt_succ_of_lt (hWF.1 p h)
    · intro p hp
      simp only [execute_link_insertion_command, ContextMap.setReg] at hp ⊢
      exact Nat.lt_succ_of_lt (hWF.2 p hp)
  | Update c l v =>
    cases hl : alLookup l m.links_to_registries with
    | none => simpa [execute_link_insertion_command, hl] using hWF
    | some rid =>
      constructor
      · intro p hp
        simp only [execute_link_insertion_command, hl, ContextMap.setReg] at hp ⊢
        exact hWF.1 p hp
      · intro p hp
        simp only [execute_link_insertion_command, hl, ContextMap.setReg] at hp ⊢
        exact hWF.2 p hp
  | Overwrite c l v =>
    cases hl : alLookup l m.links_to_registries with
    | none => simpa [execute_link_insertion_command, hl] using hWF
    | some rid =>
      cases hg : btreeGet c (m.regs rid).records with
      | none => simpa [execute_link_insertion_command, hl, hg] using hWF
      | some rec =>
        constructor
        · intro p hp
          simp only [execute_link_insertion_command, hl, hg, ContextMap.setReg] at hp ⊢
          exact hWF.1 p hp
        · intro p hp
          simp only [execute_link_insertion_command, hl, hg, ContextMap.setReg] at hp ⊢
          exact hWF.2 p hp
  | NoChange => exact hWF

theorem exec_link_rid_lt {m : ContextMap L C V} (hWF : m.WF)
    {lc : LinkInsertionCommand C L V} {rid : Nat} {m1 : ContextMap L C V}
    (h : execute_link_insertion_command m lc = (.ok (some rid), m1)) :
    rid < m1.nextId := by
  cases lc with
  | NewLink c l v =>
    simp only [execute_link_insertion_command, ContextMap.setReg] at h
    have h1 : rid = m.nextId := by
      have := congrArg Prod.fst h
      simp at this
      omega
    have h2 : m1.nextId = m.nextId + 1 := by
      have := congrArg (fun p => (Prod.snd p).nextId) h
      simp at this
      omega
    omega
  | Update c l v =>
    cases hl : alLookup l m.links_to_registries with
    | none => simp [execute_link_insertion_command, hl] at h
    | some rid0 =>
      simp only [execute_link_insertion_command, hl, ContextMap.setReg] at h
      have h1 : rid = rid0 := by
        have := congrArg Prod.fst h
        simp at this
        omega
      have h2 : m1.nextId = m.nextId := by
        have := congrArg (fun p => (Prod.snd p).nextId) h
        simp at this
        omega
      rw [h1, h2]
      exact hWF.1 (l, rid0) (alLookup_mem hl)
  | Overwrite c l v =>
    cases hl : alLookup l m.links_to_registries with
    | none => simp [execute_link_insertion_command, hl] at h
    | some rid0 =>
      cases hg : btreeGet c (m.regs rid0).records with
      | none => simp [execute_link_insertion_command, hl, hg] at h
      | some rec =>
        simp only [execute_link_insertion_command, hl, hg, ContextMap.setReg] at h
        have h1 : rid = rid0 := by
          have := congrArg Prod.fst h
          simp at this
          omega
        have h2 : m1.nextId = m.nextId := by
          have := congrArg (fun p => (Prod.snd p).nextId) h
          simp at this
          omega
        rw [h1, h2]
        exact hWF.1 (l, rid0) (alLookup_mem hl)
  | NoChange => simp [execute_link_insertion_command] at h

theorem wf_exec_value {m : ContextMap L C V} (hWF : m.WF) (vc : ValueInsertionCommand C V)
    {newRid : Nat} (hrid : newRid < m.nextId) :
    ((execute_value_insertion_command m vc newRid).2).WF := by
  cases vc with
  | AddValue nv =>
    constructor
    · intro p hp
      simp only [execute_value_insertion_command] at hp ⊢
      exact hWF.1 p hp
    · intro p hp
      simp only [execute_value_insertion_command] at hp ⊢
      rcases mem_alInsert hp with h | h
      · simp [h]; exact hrid
      · exact hWF.2 p h
  | RemoveExistingValueAddNewValue ev nc nv =>
    cases hv : alLookup ev m.values_to_registries with
    | none => simpa [execute_value_insertion_command, hv] using hWF
    | some exRid =>
      cases hlk : (({ m with values_to_registries := alRemove ev m.values_to_registries
          : ContextMap L C V }).regs exRid).link with
      | none =>
        constructor
        · intro p hp
          simp only [execute_value_insertion_command, hv, hlk] at hp ⊢
          exact hWF.1 p hp
        · intro p hp
          simp only [execute_value_insertion_command, hv, hlk] at hp ⊢
          exact hWF.2 p (mem_alRemove hp)
      | some el =>
        constructor
        · intro p hp
          simp only [execute_value_insertion_command, hv, hlk, ContextMap.setReg] at hp ⊢
          exact hWF.1 p hp
        · intro p hp
          simp only [execute_value_insertion_command, hv, hlk, ContextMap.setReg] at hp ⊢
          rcases mem_alInsert hp with h | h
          · simp [h]; exact hrid
          · exact hWF.2 p (mem_alRemove h)

theorem sortedHeap_exec_link {m : ContextMap L C V} (hWF : m.WF) (hs : m.SortedHeap)
    (lc : LinkInsertionCommand C L V) :
    ((execute_link_insertion_command m lc).2).SortedHeap := by
  cases lc with
  | NewLink c l v =>
    intro rid hrid
    simp only [execute_link_insertion_command, ContextMap.setReg] at hrid ⊢
    by_cases h : rid = m.nextId
    · simp [h, ContextRegistry.new]
    · simp only [if_neg h]
      exact hs rid (by omega)
  | Update c l v =>
    cases hl : alLookup l m.links_to_registries with
    | none => simpa [execute_link_insertion_command, hl] using hs
    | some rid0 =>
      intro rid hrid
      simp only [execute_link_insertion_command, hl, ContextMap.setReg] at hrid ⊢
      by_cases h : rid = rid0
      · simp only [if_pos h, ContextRegistry.insert]
        exact pairwise_keys_btreeInsert (hs rid0 (hWF.1 (l, rid0) (alLookup_mem hl)))
      · simp only [if_neg h]
        exact hs rid hrid
  | Overwrite c l v =>
    cases hl : alLookup l m.links_to_registries with
    | none => simpa [execute_link_insertion_command, hl] using hs
    | some rid0 =>
      cases hg : btreeGet c (m.regs rid0).records with
      | none => simpa [execute_link_insertion_command, hl, hg] using hs
      | some rec =>
        intro rid hrid
        simp only [execute_link_insertion_command, hl, hg, ContextMap.setReg] at hrid ⊢
        by_cases h : rid = rid0
        · simp only [if_pos h]
          have := hs rid0 (hWF.1 (l, rid0) (alLookup_mem hl))
          simpa [btreeSetSomeValue_keys] using this
        · simp only [if_neg h]
          exact hs rid hrid
  | NoChange => exact hs

theorem sortedHeap_exec_value {m : ContextMap L C V}
    (hWFv : ∀ p ∈ m.values_to_registries, p.2 < m.nextId) (hs : m.SortedHeap)
    (vc : ValueInsertionCommand C V) (newRid : Nat) :
    ((execute_value_insertion_command m vc newRid).2).SortedHeap := by
  cases vc with
  | AddValue nv => exact hs
  | RemoveExistingValueAddNewValue ev nc nv =>
    cases hv : alLookup ev m.values_to_registries with
    | none => simpa [execute_value_insertion_command, hv] using hs
    | some exRid =>
      cases hlk : (({ m with values_to_registries := alRemove ev m.values_to_registries
          : ContextMap L C V }).regs exRid).link with
      | none => simpa [execute_value_insertion_command, hv, hlk] using hs
      | some el =>
        intro rid hrid
        simp only [execute_value_insertion_command, hv, hlk, ContextMap.setReg] at hrid ⊢
        by_cases h : rid = exRid
        · simp only [if_pos h, ContextRegistry.insert]
          exact pairwise_keys_btreeInsert (hs exRid (hWFv (ev, exRid) (alLookup_mem hv)))
        · simp only [if_neg h]
          exact hs rid hrid

theorem ne_exec_link {m : ContextMap L C V} (hne : m.ReachableNE)
    (lc : LinkInsertionCommand C L V) :
    ((execute_link_insertion_command m lc).2).ReachableNE := by
  cases lc with
  | NewLink c l v =>
    constructor
    · intro p hp
      simp only [execute_link_insertion_command, ContextMap.setReg] at hp ⊢
      rcases mem_alInsert hp with h | h
      · simp [h, ContextRegistry.lastKeyValue, ContextRegistry.new]
      · by_cases h2 : p.2 = m.nextId
        · simp [h2, ContextRegistry.lastKeyValue, ContextRegistry.new]
        · simp only [if_neg h2]
          exact hne.1 p h
    · intro p hp
      simp only [execute_link_insertion_command, ContextMap.setReg] at hp ⊢
      by_cases h2 : p.2 = m.nextId
      · simp [h2, ContextRegistry.lastKeyValue, ContextRegistry.new]
      · simp only [if_neg h2]
        exact hne.2 p hp
  | Update c l v =>
    cases hl : alLookup l m.links_to_registries with
    | none => simpa [execute_link_insertion_command, hl] using hne
    | some rid0 =>
      constructor
      · intro p hp
        simp only [execute_link_insertion_command, hl, ContextMap.setReg] at hp ⊢
        by_cases h2 : p.2 = rid0
        · simp [h2, ContextRegistry.lastKeyValue, ContextRegistry.insert,
            List.getLast?_isSome, btreeInsert_ne_nil]
        · simp only [if_neg h2]
          exact hne.1 p hp
      · intro p hp
        simp only [execute_link_insertion_command, hl, ContextMap.setReg] at hp ⊢
        by_cases h2 : p.2 = rid0
        · simp [h2, ContextRegistry.lastKeyValue, ContextRegistry.insert,
            List.getLast?_isSome, btreeInsert_ne_nil]
        · simp only [if_neg h2]
          exact hne.2 p hp
  | Overwrite c l v =>
    cases hl : alLookup l m.links_to_registries with
    | none => simpa [execute_link_insertion_command, hl] using hne
    | some rid0 =>
      cases hg : btreeGet c (m.regs rid0).records with
      | none => simpa [execute_link_insertion_command, hl, hg] using hne
      | some rec =>
        have hnn : btreeSetSomeValue c v (m.regs rid0).records ≠ [] :=
          btreeSetSomeValue_ne_nil (btreeGet_some_ne_nil hg)
        constructor
        · intro p hp
          simp only [execute_link_insertion_command, hl, hg, ContextMap.setReg] at hp ⊢
          by_cases h2 : p.2 = rid0
          · simp [h2, ContextRegistry.lastKeyValue, List.getLast?_isSome, hnn]
          · simp only [if_neg h2]
            exact hne.1 p hp
        · intro p hp
          simp only [execute_link_insertion_command, hl, hg, ContextMap.setReg] at hp ⊢
          by_cases h2 : p.2 = rid0
          · simp [h2, ContextRegistry.lastKeyValue, List.getLast?_isSome, hnn]
          · simp only [if_neg h2]
            exact hne.2 p hp
  | NoChange => exact hne

theorem exec_link_ok_reg_isSome {m : ContextMap L C V} {lc : LinkInsertionCommand C L V}
    {rid : Nat} {m1 : ContextMap L C V}
    (h : execute_link_insertion_command m lc = (.ok (some rid), m1)) :
    ((m1.regs rid).lastKeyValue).isSome = true := by
  cases lc with
  | NewLink c l v =>
    simp only [execute_link_insertion_command, ContextMap.setReg, Prod.mk.injEq] at h
    obtain ⟨h1, h2⟩ := h
    simp at h1
    rw [← h2, ← h1]
    simp [ContextRegistry.lastKeyValue, ContextRegistry.new]
  | Update c l v =>
    cases hl : alLookup l m.links_to_registries with
    | none => simp [execute_link_insertion_command, hl] at h
    | some rid0 =>
      simp only [execute_link_insertion_command, hl, ContextMap.setReg, Prod.mk.injEq] at h
      obtain ⟨h1, h2⟩ := h
      simp at h1
      rw [← h2, ← h1]
      simp [ContextRegistry.lastKeyValue, ContextRegistry.insert, List.getLast?_isSome,
        btreeInsert_ne_nil]
  | Overwrite c l v =>
    cases hl : alLookup l m.links_to_registries with
    | none => simp [execute_link_insertion_command, hl] at h
    | some rid0 =>
      cases hg : btreeGet c (m.regs rid0).records with
      | none => simp [execute_link_insertion_command, hl, hg] at h
      | some rec =>
        have hnn : btreeSetSomeValue c v (m.regs rid0).records ≠ [] :=
          btreeSetSomeValue_ne_nil (btreeGet_some_ne_nil hg)
        simp only [execute_link_insertion_command, hl, hg, ContextMap.setReg,
          Prod.mk.injEq] at h
        obtain ⟨h1, h2⟩ := h
        simp at h1
        rw [← h2, ← h1]
        simp [ContextRegistry.lastKeyValue, List.getLast?_isSome, hnn]
  | NoChange => simp [execute_link_insertion_command] at h

theorem ne_exec_value {m : ContextMap L C V} (hne : m.ReachableNE)
    (vc : ValueInsertionCommand C V) {newRid : Nat}
    (hnr : ((m.regs newRid).lastKeyValue).isSome = true) :
    ((execute_value_insertion_command m vc newRid).2).ReachableNE := by
  cases vc with
  | AddValue nv =>
    constructor
    · intro p hp
      simp only [execute_value_insertion_command] at hp ⊢
      exact hne.1 p hp
    · intro p hp
      simp only [execute_value_insertion_command] at hp ⊢
      rcases mem_alInsert hp with h | h
      · simp [h]; exact hnr
      · exact hne.2 p h
  | RemoveExistingValueAddNewValue ev nc nv =>
    cases hv : alLookup ev m.values_to_registries with
    | none => simpa [execute_value_insertion_command, hv] using hne
    | some exRid =>
      cases hlk : (({ m with values_to_registries := alRemove ev m.values_to_registries
          : ContextMap L C V }).regs exRid).link with
      | none =>
        constructor
        · intro p hp
          simp only [execute_value_insertion_command, hv, hlk] at hp ⊢
          exact hne.1 p hp
        · intro p hp
          simp only [execute_value_insertion_command, hv, hlk] at hp ⊢
          exact hne.2 p (mem_alRemove hp)
      | some el =>
        constructor
        · intro p hp
          simp only [execute_value_insertion_command, hv, hlk, ContextMap.setReg] at hp ⊢
          by_cases h2 : p.2 = exRid
          · simp [h2, ContextRegistry.lastKeyValue, ContextRegistry.insert,
              List.getLast?_isSome, btreeInsert_ne_nil]
          · simp only [if_neg h2]
            exact hne.1 p hp
        · intro p hp
          simp only [execute_value_insertion_command, hv, hlk, ContextMap.setReg] at hp ⊢
          rcases mem_alInsert hp with h | h
          · by_cases h2 : newRid = exRid
            · simp [h, h2, ContextRegistry.lastKeyValue, ContextRegistry.insert,
                List.getLast?_isSome, btreeInsert_ne_nil]
            · simp only [h, if_neg h2]
              exact hnr
          · by_cases h2 : p.2 = exRid
            · simp [h2, ContextRegistry.lastKeyValue, ContextRegistry.insert,
                List.getLast?_isSome, btreeInsert_ne_nil]
            · simp only [if_neg h2]
              exact hne.2 p (mem_alRemove h)

theorem alLookup_alInsert_self {κ α : Type} [DecidableEq κ] (k : κ) (a : α)
    (l : List (κ × α)) : alLookup k (alInsert k a l) = some a := by
  induction l with
  | nil => simp [alInsert, alLookup]
  | cons p t ih =>
    rcases p with ⟨k1, a1⟩
    by_cases hk : k = k1 <;> simp [alInsert, alLookup, hk, ih]

theorem query_congr_of_eq {m1 m2 : ContextMap L C V} {c : C}
    (h1 : m2.links_to_registries = m1.links_to_registries)
    (h2 : ∀ rid, (m2.regs rid).query c = (m1.regs rid).query c) (l1 : L) :
    m2.query c l1 = m1.query c l1 := by
  unfold ContextMap.query
  rw [h1]
  cases alLookup l1 m1.links_to_registries <;> simp [h2]

theorem exec_link_query_pre {m : ContextMap L C V} {c0 : C} {l : L} {v : V}
    (lc : LinkInsertionCommand C L V)
    (hWFl : ∀ p ∈ m.links_to_registries, p.2 < m.nextId)
    (hlc : lc = .NoChange ∨
      (lc = .NewLink c0 l v ∧ alLookup l m.links_to_registries = none) ∨
      lc = .Update c0 l v ∨ lc = .Overwrite c0 l v)
    {c : C} (hc : c < c0) :
    (∀ rid < m.nextId,
      (((execute_link_insertion_command m lc).2).regs rid).query c = (m.regs rid).query c) ∧
    (∀ l1, ((execute_link_insertion_command m lc).2).query c l1 = m.query c l1) := by
  rcases hlc with hlc | ⟨hlc, hnone⟩ | hlc | hlc
  · subst hlc
    exact ⟨fun rid _ => rfl, fun l1 => rfl⟩
  · subst hlc
    constructor
    · intro rid hrid
      simp only [execute_link_insertion_command, ContextMap.setReg]
      rw [if_neg (Nat.ne_of_lt hrid)]
    · intro l1
      by_cases hl1 : l1 = l
      · subst hl1
        unfold ContextMap.query
        simp only [execute_link_insertion_command, ContextMap.setReg, hnone,
          alLookup_alInsert_self]
        simp [ContextRegistry.query, ContextRegistry.new, btreeQuery, not_le_of_lt hc]
      · unfold ContextMap.query
        simp only [execute_link_insertion_command, ContextMap.setReg]
        rw [alLookup_alInsert_ne _ _ hl1]
        cases hr : alLookup l1 m.links_to_registries with
        | none => simp
        | some rid =>
          have hlt : rid < m.nextId := hWFl (l1, rid) (alLookup_mem hr)
          simp [if_neg (Nat.ne_of_lt hlt)]
  · subst hlc
    cases hl : alLookup l m.links_to_registries with
    | none =>
      constructor <;> intros <;> simp [execute_link_insertion_command, hl]
    | some rid0 =>
      have hall : ∀ rid,
          (((execute_link_insertion_command m (.Update c0 l v)).2).regs rid).query c =
            (m.regs rid).query c := by
        intro rid
        simp only [execute_link_insertion_command, hl, ContextMap.setReg]
        by_cases h2 : rid = rid0
        · subst h2
          simp only [if_pos rfl, ContextRegistry.query, ContextRegistry.insert]
          exact btreeQuery_btreeInsert_of_lt hc
        · rw [if_neg h2]
      refine ⟨fun rid _ => hall rid, ?_⟩
      intro l1
      refine query_congr_of_eq ?_ hall l1
      simp only [execute_link_insertion_command, hl, ContextMap.setReg]
  · subst hlc
    cases hl : alLookup l m.links_to_registries with
    | none =>
      constructor <;> intros <;> simp [execute_link_insertion_command, hl]
    | some rid0 =>
      cases hg : btreeGet c0 (m.regs rid0).records with
      | none =>
        constructor <;> intros <;> simp [execute_link_insertion_command, hl, hg]
      | some rec =>
        have hall : ∀ rid,
            (((execute_link_insertion_command m (.Overwrite c0 l v)).2).regs rid).query c =
              (m.regs rid).query c := by
          intro rid
          simp only [execute_link_insertion_command, hl, hg, ContextMap.setReg]
          by_cases h2 : rid = rid0
          · subst h2
            simp only [if_pos rfl, ContextRegistry.query]
            exact btreeQuery_setSome_of_lt hc
          · rw [if_neg h2]
        refine ⟨fun rid _ => hall rid, ?_⟩
        intro l1
        refine query_congr_of_eq ?_ hall l1
        simp only [execute_link_insertion_command, hl, hg, ContextMap.setReg]

theorem exec_value_query_pre {m : ContextMap L C V} {c0 : C} {v : V}
    (vc : ValueInsertionCommand C V) (newRid : Nat)
    (hvc : vc = .AddValue v ∨ ∃ ev, vc = .RemoveExistingValueAddNewValue ev c0 v)
    {c : C} (hc : c < c0) :
    ∀ rid, (((execute_value_insertion_command m vc newRid).2).regs rid).query c =
      (m.regs rid).query c := by
  rcases hvc with hvc | ⟨ev, hvc⟩
  · subst hvc
    intro rid
    rfl
  · subst hvc
    intro rid
    cases hv : alLookup ev m.values_to_registries with
    | none => simp only [execute_value_insertion_command, hv]
    | some exRid =>
      cases hlk : (({ m with values_to_registries := alRemove ev m.values_to_registries
          : ContextMap L C V }).regs exRid).link with
      | none => simp only [execute_value_insertion_command, hv, hlk]
      | some el =>
        simp only [execute_value_insertion_command, hv, hlk, ContextMap.setReg]
        by_cases h2 : rid = exRid
        · subst h2
          simp only [if_pos rfl, ContextRegistry.query, ContextRegistry.insert]
          exact btreeQuery_btreeInsert_of_lt hc
        · rw [if_neg h2]

theorem btreeQuery_some_spec {α : Type} {c : C} {l : List (C × α)}
    (hs : List.Pairwise (· < ·) (l.map Prod.fst)) {a : α}
    (h : btreeQuery c l = some a) :
    ∃ k, (k, a) ∈ l ∧ k ≤ c ∧ ∀ k1 ∈ l.map Prod.fst, k1 ≤ c → k1 ≤ k := by
  induction l with
  | nil => simp [btreeQuery] at h
  | cons p t ih =>
    rcases p with ⟨k0, a0⟩
    simp only [List.map_cons, List.pairwise_cons] at hs
    by_cases hk0 : k0 ≤ c
    · simp only [btreeQuery, if_pos hk0] at h
      cases hq : btreeQuery c t with
      | none =>
        rw [hq] at h
        simp at h
        subst h
        refine ⟨k0, List.mem_cons_self _ _, hk0, ?_⟩
        intro k1 hk1 hle
        rw [List.map_cons, List.mem_cons] at hk1
        rcases hk1 with hk1 | hk1
        · exact le_of_eq hk1
        · exfalso
          have hnone := btreeQuery_none_iff.mp hq
          rcases hnone with ht | ⟨kh, ah, t1, ht, hckh⟩
          · subst ht; simp at hk1
          · subst ht
            rw [List.map_cons, List.mem_cons] at hk1
            rcases hk1 with hk1 | hk1
            · subst hk1; exact absurd hle (not_le_of_lt hckh)
            · have h2 := hs.2
              simp only [List.map_cons, List.pairwise_cons] at h2
              have := h2.1 k1 hk1
              exact absurd hle (not_le_of_lt (lt_trans hckh this))
      | some a1 =>
        rw [hq] at h
        simp at h
        subst h
        obtain ⟨k, hkmem, hkc, hmax⟩ := ih hs.2 hq
        refine ⟨k, List.mem_cons_of_mem _ hkmem, hkc, ?_⟩
        intro k1 hk1 hle
        rw [List.map_cons, List.mem_cons] at hk1
        rcases hk1 with hk1 | hk1
        · subst hk1
          exact le_of_lt (hs.1 k (List.mem_map_of_mem Prod.fst hkmem))
        · exact hmax k1 hk1 hle
    · simp [btreeQuery, hk0] at h

theorem insert_snd_eq {m : ContextMap L C V} {context : C} {link : L} {value : V}
    {lc : LinkInsertionCommand C L V} {vc : ValueInsertionCommand C V}
    (hg : generate_insertion_commands m context link value = .ok (lc, vc)) :
    (m.insert_with_overwrite context link value).2 = (execute_insertion_commands m lc vc).2 := by
  unfold ContextMap.insert_with_overwrite
  rw [hg]
  dsimp only
  cases hee : execute_insertion_commands m lc vc with
  | mk r m1 => cases r <;> rfl

theorem exec_insertion_snd (m : ContextMap L C V) (lc : LinkInsertionCommand C L V)
    (vc : ValueInsertionCommand C V) :
    (execute_insertion_commands m lc vc).2 =
      (match execute_link_insertion_command m lc with
       | (.ok (some newRid), m1) => (execute_value_insertion_command m1 vc newRid).2
       | (.ok none, m1) => m1
       | (.panicked, m1) => m1) := by
  unfold execute_insertion_commands
  cases hel : execute_link_insertion_command m lc with
  | mk r m1 =>
    cases r with
    | ok o => cases o <;> rfl
    | panicked => rfl

theorem wf_insert {m : ContextMap L C V} (hWF : m.WF) (context : C) (link : L) (value : V) :
    ((m.insert_with_overwrite context link value).2).WF := by
  cases hg : generate_insertion_commands m context link value with
  | error e =>
    unfold ContextMap.insert_with_overwrite
    rw [hg]
    exact hWF
  | panicked =>
    unfold ContextMap.insert_with_overwrite
    rw [hg]
    exact hWF
  | ok cmds =>
    rcases cmds with ⟨lc, vc⟩
    rw [insert_snd_eq hg, exec_insertion_snd]
    cases hel : execute_link_insertion_command m lc with
    | mk r m1 =>
      cases r with
      | panicked =>
        have h1 := wf_exec_link hWF lc
        rw [hel] at h1
        exact h1
      | ok o =>
        cases o with
        | none =>
          have h1 := wf_exec_link hWF lc
          rw [hel] at h1
          exact h1
        | some newRid =>
          have h1 := wf_exec_link hWF lc
          rw [hel] at h1
          exact wf_exec_value h1 vc (exec_link_rid_lt hWF hel)

theorem sortedHeap_insert {m : ContextMap L C V} (hWF : m.WF) (hs : m.SortedHeap)
    (context : C) (link : L) (value : V) :
    ((m.insert_with_overwrite context link value).2).SortedHeap := by
  cases hg : generate_insertion_commands m context link value with
  | error e =>
    unfold ContextMap.insert_with_overwrite
    rw [hg]
    exact hs
  | panicked =>
    unfold ContextMap.insert_with_overwrite
    rw [hg]
    exact hs
  | ok cmds =>
    rcases cmds with ⟨lc, vc⟩
    rw [insert_snd_eq hg, exec_insertion_snd]
    cases hel : execute_link_insertion_command m lc with
    | mk r m1 =>
      cases r with
      | panicked =>
        have h1 := sortedHeap_exec_link hWF hs lc
        rw [hel] at h1
        exact h1
      | ok o =>
        cases o with
        | none =>
          have h1 := sortedHeap_exec_link hWF hs lc
          rw [hel] at h1
          exact h1
        | some newRid =>
          have h1 := sortedHeap_exec_link hWF hs lc
          rw [hel] at h1
          have hveq := exec_link_values_eq m lc
          rw [hel] at hveq
          have hnge := exec_link_nextId_ge m lc
          rw [hel] at hnge
          have hv : ∀ p ∈ m1.values_to_registries, p.2 < m1.nextId := by
            intro p hp
            rw [hveq] at hp
            exact lt_of_lt_of_le (hWF.2 p hp) hnge
          exact sortedHeap_exec_value hv h1 vc newRid

theorem ne_insert {m : ContextMap L C V} (hne : m.ReachableNE) (context : C) (link : L)
    (value : V) : ((m.insert_with_overwrite context link value).2).ReachableNE := by
  cases hg : generate_insertion_commands m context link value with
  | error e =>
    unfold ContextMap.insert_with_overwrite
    rw [hg]
    exact hne
  | panicked =>
    unfold ContextMap.insert_with_overwrite
    rw [hg]
    exact hne
  | ok cmds =>
    rcases cmds with ⟨lc, vc⟩
    rw [insert_snd_eq hg, exec_insertion_snd]
    cases hel : execute_link_insertion_command m lc with
    | mk r m1 =>
      cases r with
      | panicked =>
        have h1 := ne_exec_link hne lc
        rw [hel] at h1
        exact h1
      | ok o =>
        cases o with
        | none =>
          have h1 := ne_exec_link hne lc
          rw [hel] at h1
          exact h1
        | some newRid =>
          have h1 := ne_exec_link hne lc
          rw [hel] at h1
          exact ne_exec_value h1 vc (exec_link_ok_reg_isSome hel)

end PreservationLemmas

/-
Claim theorems.
-/

section ClaimTheorems

set_option linter.unusedSectionVars false

variable {C L V : Type} [LinearOrder C] [DecidableEq L] [DecidableEq V]

/-- Claim C1 (bijection invariant) is refuted by the code: after the three
successful inserts insert(0, "a", 10), insert(1, "b", 20), insert(2, "b", 10),
link "a" still has live value 10, yet value 10 resolves to live link "b", not
"a", so get_live_value and get_live_link do not form a bijection. -/
theorem c1_bijection_invariant_fails :
    scenarioStep1.1 = .ok () ∧ scenarioStep2.1 = .ok () ∧ scenarioStep3.1 = .ok () ∧
    scenarioState3.get_live_value "a" = some 10 ∧
    scenarioState3.get_live_link 10 = some "b" ∧
    ¬ scenarioState3.get_live_link 10 = some "a" := by decide

/-- Claim C2 (nullify-then-repoint) is refuted by the code on the very
scenario the claim cites: after insert(0, "a", 10), insert(1, "b", 20),
insert(2, "b", 10) all succeed, querying link "a" at contexts 2 and 3 still
returns the Some(10) record (the claim says None), and querying link "b" at
contexts 2 and 3 returns a None-valued record (the claim says Some(10));
only live_link(10) = Some("b") agrees with the claim.  The execute path
removes the value entry of the old value held by the inserted link and writes the
None record over the just-written record of link "b" at context 2, instead of
nullifying the registry that held value 10. -/
theorem c2_nullify_then_repoint_diverges :
    scenarioStep1.1 = .ok () ∧ scenarioStep2.1 = .ok () ∧ scenarioStep3.1 = .ok () ∧
    scenarioState3.query 2 "a" = some { context := 0, link := "a", value := some 10 } ∧
    scenarioState3.query 3 "a" = some { context := 0, link := "a", value := some 10 } ∧
    scenarioState3.query 2 "b" = some { context := 2, link := "b", value := none } ∧
    scenarioState3.query 3 "b" = some { context := 2, link := "b", value := none } ∧
    scenarioState3.get_live_link 10 = some "b" := by decide

/-- Claim C3 (destructive same-context rejection) is refuted by the code: with
link "a" holding Some(10) at context 0, insert(0, "a", 20) succeeds (the
Ordering::Equal arm issues Overwrite without inspecting the latest value, and
InsertionError::OverwritingSome is never constructed anywhere), and the stored
record for "a" at context 0 is destructively replaced by Some(20). -/
theorem c3_overwriting_some_not_rejected :
    scenarioState1.query 0 "a" = some { context := 0, link := "a", value := some 10 } ∧
    (scenarioState1.insert 0 "a" 20).1 = .ok () ∧
    (scenarioState1.insert 0 "a" 20).2.query 0 "a" =
      some { context := 0, link := "a", value := some 20 } := by decide

/-- Claim C4 (NoChange fast path) is refuted by the code: with ("a", 10) the
current live association (both indices hold the same registry id 0),
re-submitting the exact triple (0, "a", 10) returns Err(NullifyingSome)
instead of succeeding.  The fast-path test std::ptr::eq compares the addresses
of the two Rc handles stored in two different HashMaps and is therefore never
true, so the value generator sees an equal context on the value registry and
rejects. -/
theorem c4_noop_resubmission_rejected :
    alLookup "a" scenarioState1.links_to_registries = some 0 ∧
    alLookup (10 : Nat) scenarioState1.values_to_registries = some 0 ∧
    scenarioState1.get_live_value "a" = some 10 ∧
    (scenarioState1.insert 0 "a" 10).1 = .error (.insertion .NullifyingSome) := by decide

/-- Claim C5 (error atomicity): whenever insert_with_overwrite returns an
InsertionError, the resulting state is exactly the input state, and the error
came out of the pure generate phase, which runs before any write. -/
theorem c5_error_atomicity (m : ContextMap L C V) (context : C) (link : L) (value : V)
    (e : InsertionError) (h : (m.insert_with_overwrite context link value).1 = .error e) :
    (m.insert_with_overwrite context link value).2 = m ∧
    generate_insertion_commands m context link value = .error e := by
  unfold ContextMap.insert_with_overwrite at h ⊢
  cases hg : generate_insertion_commands m context link value with
  | error e1 =>
    rw [hg] at h
    simp at h
    subst h
    exact ⟨rfl, rfl⟩
  | panicked =>
    rw [hg] at h
    simp at h
  | ok cmds =>
    rcases cmds with ⟨lc, vc⟩
    rw [hg] at h
    dsimp only at h
    cases hee : execute_insertion_commands m lc vc with
    | mk r m1 =>
      rw [hee] at h
      cases r <;> simp at h

/-- Witness for the error atomicity theorem at a concrete erroring insert. -/
theorem c5_error_atomicity_witness :
    (scenarioState1.insert_with_overwrite 0 "a" 10).1 = .error .NullifyingSome ∧
    (scenarioState1.insert_with_overwrite 0 "a" 10).2 = scenarioState1 :=
  ⟨by decide, (c5_error_atomicity scenarioState1 0 "a" 10 .NullifyingSome (by decide)).1⟩

/-- Claim C6 (chronological monotonicity): on any well-formed state, after any
insert the contexts recorded in every registry reachable from either index
form a non-decreasing (in fact strictly increasing) sequence, and an insert
whose context is strictly earlier than the latest recorded context of the
registry indexed under its link, or of the registry indexed under its value,
fails with OutdatedContext and returns the state unchanged. -/
theorem c6_chronological_monotonicity (m : ContextMap L C V) (hWF : m.WF)
    (hs : m.SortedHeap) (hne : m.ReachableNE) (context : C) (link : L) (value : V) :
    (((m.insert_with_overwrite context link value).2).SortedHeap ∧
      (∀ p ∈ ((m.insert_with_overwrite context link value).2).links_to_registries,
        List.Pairwise (· ≤ ·)
          ((((m.insert_with_overwrite context link value).2).regs p.2).records.map
            Prod.fst)) ∧
      (∀ p ∈ ((m.insert_with_overwrite context link value).2).values_to_registries,
        List.Pairwise (· ≤ ·)
          ((((m.insert_with_overwrite context link value).2).regs p.2).records.map
            Prod.fst))) ∧
    (((∃ rid lcx, alLookup link m.links_to_registries = some rid ∧
        (m.regs rid).context = some lcx ∧ context < lcx) ∨
      (∃ rid vcx, alLookup value m.values_to_registries = some rid ∧
        (m.regs rid).context = some vcx ∧ context < vcx)) →
      m.insert_with_overwrite context link value = (.error .OutdatedContext, m)) := by
  have hWFa := wf_insert hWF context link value
  have hsa := sortedHeap_insert hWF hs context link value
  refine ⟨⟨hsa, fun p hp => (hsa p.2 (hWFa.1 p hp)).imp le_of_lt,
    fun p hp => (hsa p.2 (hWFa.2 p hp)).imp le_of_lt⟩, ?_⟩
  rintro (⟨rid, lcx, hl, hcx, hlt⟩ | ⟨rid, vcx, hv, hcx, hlt⟩)
  · have hgl := gen_link_outdated value hl hcx hlt
    unfold ContextMap.insert_with_overwrite generate_insertion_commands
    rw [hgl]
  · cases hl : alLookup link m.links_to_registries with
    | none =>
      have hgl : generate_link_insertion_command m context link value =
          .ok (.NewLink context link value) := by
        rw [gen_link_eq_main]
        unfold generate_link_insertion_command_main
        rw [hl]
      have hgv := gen_value_outdated link hv hcx hlt
      unfold ContextMap.insert_with_overwrite generate_insertion_commands
      rw [hgl]
      dsimp only
      rw [hgv]
    | some ridl =>
      obtain ⟨lcx2, hcx2⟩ := registry_context_isSome (hne.1 (link, ridl) (alLookup_mem hl))
      rcases lt_trichotomy context lcx2 with hcmp | hcmp | hcmp
      · have hgl := gen_link_outdated value hl hcx2 hcmp
        unfold ContextMap.insert_with_overwrite generate_insertion_commands
        rw [hgl]
      · have hgl : generate_link_insertion_command m context link value =
            .ok (.Overwrite context link value) := by
          rw [gen_link_eq_main]
          unfold generate_link_insertion_command_main
          rw [hl]
          dsimp only
          rw [hcx2]
          dsimp only
          rw [compare_eq_iff_eq.mpr hcmp]
        have hgv := gen_value_outdated link hv hcx hlt
        unfold ContextMap.insert_with_overwrite generate_insertion_commands
        rw [hgl]
        dsimp only
        rw [hgv]
      · have hgl : generate_link_insertion_command m context link value =
            .ok (.Update context link value) := by
          rw [gen_link_eq_main]
          unfold generate_link_insertion_command_main
          rw [hl]
          dsimp only
          rw [hcx2]
          dsimp only
          rw [compare_gt_iff_gt.mpr hcmp]
        have hgv := gen_value_outdated link hv hcx hlt
        unfold ContextMap.insert_with_overwrite generate_insertion_commands
        rw [hgl]
        dsimp only
        rw [hgv]

/-- Witness for the chronological monotonicity theorem: in the scenario state
value 10 is indexed to the registry whose latest context is 2, so inserting it
again at the earlier context 1 under a fresh link fails with OutdatedContext
and leaves the state untouched. -/
theorem c6_chronological_monotonicity_witness :
    scenarioState3.WF ∧ scenarioState3.SortedHeap ∧ scenarioState3.ReachableNE ∧
    scenarioState3.insert_with_overwrite 1 "c" 10 = (.error .OutdatedContext, scenarioState3) :=
  ⟨by decide, by decide, by decide,
    (c6_chronological_monotonicity scenarioState3 (by decide) (by decide) (by decide)
        1 "c" 10).2
      (Or.inr ⟨1, 2, by decide, by decide, by decide⟩)⟩

/-- Claim C7 (time-travel immutability): for any well-formed state, an insert
at context c0 cannot change the answer of any registry query, nor any map
query, at a context c strictly before c0.  In particular a record already
written at context K is never mutated or removed by an insertion at a strictly
later context, since every query at a context at most K and strictly below c0
keeps its answer. -/
theorem c7_time_travel_immutability (m : ContextMap L C V) (hWF : m.WF) (context : C)
    (link : L) (value : V) (c : C) (hc : c < context) :
    (∀ rid < m.nextId,
      (((m.insert_with_overwrite context link value).2).regs rid).query c =
        (m.regs rid).query c) ∧
    (∀ l1, ((m.insert_with_overwrite context link value).2).query c l1 =
      m.query c l1) := by
  cases hg : generate_insertion_commands m context link value with
  | error e =>
    unfold ContextMap.insert_with_overwrite
    rw [hg]
    exact ⟨fun _ _ => rfl, fun _ => rfl⟩
  | panicked =>
    unfold ContextMap.insert_with_overwrite
    rw [hg]
    exact ⟨fun _ _ => rfl, fun _ => rfl⟩
  | ok cmds =>
    rcases cmds with ⟨lc, vc⟩
    obtain ⟨hgl, hgv⟩ := gen_commands_ok_inv hg
    have hlc : lc = .NoChange ∨
        (lc = .NewLink context link value ∧ alLookup link m.links_to_registries = none) ∨
        lc = .Update context link value ∨ lc = .Overwrite context link value := by
      rcases gen_link_ok_inv hgl with ⟨h1, h2⟩ | ⟨rid, lcx, h3, h4, ⟨h1, h2⟩ | ⟨h1, h2⟩⟩
      · exact Or.inr (Or.inl ⟨h1, h2⟩)
      · exact Or.inr (Or.inr (Or.inr h1))
      · exact Or.inr (Or.inr (Or.inl h1))
    have hvc : vc = .AddValue value ∨
        ∃ ev, vc = .RemoveExistingValueAddNewValue ev context value := by
      rcases gen_value_ok_inv hgv with ⟨h1, h2⟩ | ⟨rid, vcx, ev, h2, h3, h4, h5, h1⟩
      · exact Or.inl h1
      · exact Or.inr ⟨ev, h1⟩
    rw [insert_snd_eq hg, exec_insertion_snd]
    obtain ⟨hregQ, hmapQ⟩ := exec_link_query_pre lc hWF.1 hlc hc
    cases hel : execute_link_insertion_command m lc with
    | mk r m1 =>
      rw [hel] at hregQ hmapQ
      cases r with
      | panicked =>
        dsimp only
        exact ⟨hregQ, hmapQ⟩
      | ok o =>
        cases o with
        | none =>
          dsimp only
          exact ⟨hregQ, hmapQ⟩
        | some newRid =>
          dsimp only
          have hv2 := exec_value_query_pre (m := m1) vc newRid hvc hc
          have hlinks := exec_value_links_eq m1 vc newRid
          refine ⟨?_, ?_⟩
          · intro rid hrid
            rw [hv2 rid, hregQ rid hrid]
          · intro l1
            rw [query_congr_of_eq hlinks hv2 l1, hmapQ l1]

/-- Witness for the time-travel immutability theorem: the scenario insert at
context 2 leaves the answer of query at context 1 for link "b" unchanged. -/
theorem c7_time_travel_immutability_witness :
    scenarioState2.WF ∧ (1 : Nat) < 2 ∧
    ((scenarioState2.insert_with_overwrite 2 "b" 10).2).query 1 "b" =
      scenarioState2.query 1 "b" ∧
    ((scenarioState2.insert_with_overwrite 2 "b" 10).2).query 1 "a" =
      scenarioState2.query 1 "a" :=
  ⟨by decide, by decide,
    (c7_time_travel_immutability scenarioState2 (by decide) 2 "b" 10 1 (by decide)).2 "b",
    (c7_time_travel_immutability scenarioState2 (by decide) 2 "b" 10 1 (by decide)).2 "a"⟩

/-- Claim C8 (query semantics): on a registry whose records are in strictly
increasing context order (the BTreeMap invariant), ContextRegistry.query
returns none exactly when the queried context precedes the first record, and
whenever it returns a record, that record is stored under the greatest key not
exceeding the queried context; ContextMap.query returns none when the link is
absent from the link index, and otherwise delegates to the query of the
registry the link resolves to. -/
theorem c8_query_semantics (r : ContextRegistry C L V)
    (hs : List.Pairwise (· < ·) (r.records.map Prod.fst)) (c : C) :
    (∀ k0 rec0 t, r.records = (k0, rec0) :: t → (r.query c = none ↔ c < k0)) ∧
    (∀ rec, r.query c = some rec →
      ∃ k, (k, rec) ∈ r.records ∧ k ≤ c ∧
        ∀ k1 ∈ r.records.map Prod.fst, k1 ≤ c → k1 ≤ k) ∧
    (∀ (m : ContextMap L C V) (l1 : L),
      (alLookup l1 m.links_to_registries = none → m.query c l1 = none) ∧
      (∀ rid, alLookup l1 m.links_to_registries = some rid →
        m.query c l1 = (m.regs rid).query c)) := by
  refine ⟨?_, ?_, ?_⟩
  · intro k0 rec0 t hrec
    unfold ContextRegistry.query
    rw [hrec]
    by_cases h : k0 ≤ c
    · simp [btreeQuery, h, not_lt.mpr h]
    · simp [btreeQuery, h, lt_of_not_le h]
  · intro rec hq
    exact btreeQuery_some_spec hs hq
  · intro m l1
    constructor
    · intro h
      unfold ContextMap.query
      rw [h]
      rfl
    · intro rid h
      unfold ContextMap.query
      rw [h]
      rfl

/-- Witness for the query semantics theorem on the scenario registry of link
"b", whose records sit at contexts 1 and 2. -/
theorem c8_query_semantics_witness :
    List.Pairwise (· < ·) ((scenarioState3.regs 1).records.map Prod.fst) ∧
    ((scenarioState3.regs 1).query 0 = none ↔ (0 : Nat) < 1) ∧
    scenarioState3.query 0 "b" = (scenarioState3.regs 1).query 0 :=
  ⟨by decide,
    (c8_query_semantics (scenarioState3.regs 1) (by decide) 0).1 1
      { context := 1, link := "b", value := some 20 }
      [(2, { context := 2, link := "b", value := none })] (by decide),
    ((c8_query_semantics (scenarioState3.regs 1) (by decide) 0).2.2 scenarioState3 "b").2
      1 (by decide)⟩

/-- Claim C9 (registries are never empty): a registry is created with exactly
one Some-valued record; the empty map reaches no registry; and every reachable
registry of a state in which all reachable registries are non-empty (so
last_key_value finds a record) stays non-empty through any insert — the
expect inside last_key_value is unreachable on states built by the
operations. -/
theorem c9_registries_never_empty (m : ContextMap L C V) (hne : m.ReachableNE)
    (context : C) (link : L) (value : V) :
    (ContextRegistry.new context link value : ContextRegistry C L V).records =
      [(context, { context := context, link := link, value := some value })] ∧
    (ContextMap.new : ContextMap L C V).ReachableNE ∧
    ((m.insert_with_overwrite context link value).2).ReachableNE := by
  refine ⟨rfl, ?_, ne_insert hne context link value⟩
  constructor <;> intro p hp <;> simp [ContextMap.new] at hp

/-- Witness for the non-empty registries theorem across the scenario insert
that mutates two registries. -/
theorem c9_registries_never_empty_witness :
    scenarioState2.ReachableNE ∧
    ((scenarioState2.insert_with_overwrite 2 "b" 10).2).ReachableNE :=
  ⟨by decide,
    (c9_registries_never_empty scenarioState2 (by decide) 2 "b" 10).2.2⟩

/-- Claim C10 (insert_without_overwrite): whenever the generated link-side
command is Overwrite — which forces the link to be present with the submitted
context equal to the latest context of its registry, and forbids the link and value
from indexing the same registry — insert_without_overwrite rejects with the
string error and returns the state unchanged; for every input whose generated
commands are not a link-side Overwrite it returns exactly what the public
insert (insert_with_overwrite with the error boxed) returns. -/
theorem c10_insert_without_overwrite_spec (m : ContextMap L C V) (context : C) (link : L)
    (value : V) :
    (∀ lc vc, generate_insertion_commands m context link value = .ok (lc, vc) →
      ∀ c1 l1 v1, lc = .Overwrite c1 l1 v1 →
        (m.insert_without_overwrite context link value = (.error .overwriteTodo, m) ∧
         (∃ rid, alLookup link m.links_to_registries = some rid ∧
            (m.regs rid).context = some context) ∧
         ¬ ∃ rid, alLookup link m.links_to_registries = some rid ∧
             alLookup value m.values_to_registries = some rid)) ∧
    ((∀ c1 l1 v1 vc, generate_insertion_commands m context link value ≠
        .ok (.Overwrite c1 l1 v1, vc)) →
      m.insert_without_overwrite context link value = m.insert context link value) := by
  constructor
  · intro lc vc hg c1 l1 v1 hlc
    subst hlc
    obtain ⟨hgl, hgv⟩ := gen_commands_ok_inv hg
    rcases gen_link_ok_inv hgl with ⟨h1, h2⟩ | ⟨rid, lcx, hl, hcx, hOU⟩
    · simp at h1
    rcases hOU with ⟨hO, hkeq⟩ | ⟨hU, h2⟩
    · refine ⟨?_, ⟨rid, hl, ?_⟩, ?_⟩
      · unfold ContextMap.insert_without_overwrite
        rw [hg]
      · rw [hcx, hkeq]
      · rintro ⟨rid2, hl2, hv2⟩
        rw [hl] at hl2
        injection hl2 with hr
        subst hr
        unfold generate_value_insertion_command at hgv
        rw [hv2] at hgv
        dsimp only at hgv
        rw [hcx] at hgv
        dsimp only at hgv
        rw [compare_eq_iff_eq.mpr hkeq] at hgv
        simp at hgv
    · simp at hU
  · intro hno
    cases hg : generate_insertion_commands m context link value with
    | error e =>
      simp only [ContextMap.insert_without_overwrite, ContextMap.insert,
        ContextMap.insert_with_overwrite, hg]
    | panicked =>
      simp only [ContextMap.insert_without_overwrite, ContextMap.insert,
        ContextMap.insert_with_overwrite, hg]
    | ok cmds =>
      rcases cmds with ⟨lc, vc⟩
      cases lc with
      | Overwrite c1 l1 v1 => exact absurd hg (hno c1 l1 v1 vc)
      | NewLink c1 l1 v1 =>
        simp only [ContextMap.insert_without_overwrite, ContextMap.insert,
          ContextMap.insert_with_overwrite, hg]
        cases hee : execute_insertion_commands m (.NewLink c1 l1 v1) vc with
        | mk r m1 => cases r <;> rfl
      | Update c1 l1 v1 =>
        simp only [ContextMap.insert_without_overwrite, ContextMap.insert,
          ContextMap.insert_with_overwrite, hg]
        cases hee : execute_insertion_commands m (.Update c1 l1 v1) vc with
        | mk r m1 => cases r <;> rfl
      | NoChange =>
        simp only [ContextMap.insert_without_overwrite, ContextMap.insert,
          ContextMap.insert_with_overwrite, hg]
        cases hee : execute_insertion_commands m .NoChange vc with
        | mk r m1 => cases r <;> rfl

/-- Witness for the insert_without_overwrite theorem: the same-context insert
(0, "a", 20) on the scenario state generates a link-side Overwrite, and
insert_without_overwrite rejects it with the string error, leaving the state
unchanged. -/
theorem c10_insert_without_overwrite_witness :
    generate_insertion_commands scenarioState1 0 "a" 20 =
      .ok (.Overwrite 0 "a" 20, .AddValue 20) ∧
    scenarioState1.insert_without_overwrite 0 "a" 20 =
      (.error .overwriteTodo, scenarioState1) :=
  ⟨by decide,
    ((c10_insert_without_overwrite_spec scenarioState1 0 "a" 20).1
        (.Overwrite 0 "a" 20) (.AddValue 20) (by decide) 0 "a" 20 rfl).1⟩

end ClaimTheorems
